import Mathlib

/-!
# Verification of the worth simulator (simulator.py)

Shallow embedding of the Python 2 sources of the net-worth simulator.

Modelling conventions:
* Python floats are modelled as exact rationals.
* Calendar dates are modelled as integers (day numbers); a croniter schedule
  is modelled by its current-occurrence cursor (stored on the object that owns
  the schedule) together with a next-occurrence function of type Int → Int
  passed explicitly where the code calls get_next.
* The FLAGS.variance global is False (the default): every claim under
  verification is stated for variance disabled or stddev = 0, so
  random.normalvariate is never consulted and the rate is used directly.
* Fallible Python operations (AttributeError, TypeError, KeyError,
  ZeroDivisionError, the CronError raised by the main loop) are modelled with
  Except / Option results.
-/

/-- Runtime errors of the Python interpreter and of the program itself, as far
as the embedded fragments can raise them. -/
inductive PyErr where
  | attributeError : PyErr
  | typeError : PyErr
  | keyError : PyErr
  | cronError : PyErr
deriving DecidableEq, Repr

/-- SweepRule.__init__: sweep_account is the destination account name, amount
is the watermark. -/
structure SweepRule where
  sweep_account : String
  amount : ℚ
deriving DecidableEq, Repr

/-- Account: the fields set by Account.__init__ and optionally overwritten by
LoadConfig.  The croniter timespec is represented by its current-occurrence
cursor cur (an integer day number); the amortization dict is an association
list from day number to the (interest, principle) pair. -/
structure Account where
  name : String
  value : ℚ
  rate : ℚ
  stddev : ℚ
  liquidity : ℚ
  sweep_out : Option SweepRule
  sweep_in : Option SweepRule
  start_date : Option ℤ
  loan_months : ℕ
  amortization : List (ℤ × ℚ × ℚ)
  cur : ℤ
deriving DecidableEq, Repr

/-- Python str.lower for the ASCII account names in play, computed on the
underlying character list (String.map is compiled by well-founded recursion
and does not reduce inside the kernel). -/
def strLower (s : String) : String :=
  String.mk (s.data.map Char.toLower)

/-- Account.__init__: lowercases the name and leaves every optional attribute
at its default.  (The cron cursor has no Python default because timespec is
None; 0 is used as the placeholder cursor.) -/
def mkAccount (account_name : String) (starting_value : ℚ) : Account :=
  { name := strLower account_name
    value := starting_value
    rate := 0
    stddev := 0
    liquidity := 0
    sweep_out := none
    sweep_in := none
    start_date := none
    loan_months := 0
    amortization := []
    cur := 0 }

/-- self._amortization.get(current_date, (None, None)), restricted to the pair
payload: first entry of the association list whose date key matches. -/
def amortLookup (t : List (ℤ × ℚ × ℚ)) (d : ℤ) : Option (ℚ × ℚ) :=
  (t.find? (fun e => e.1 = d)).map (fun e => e.2)

/-- Account._RateFraction with variance disabled (or stddev = 0): the day
count between the two dates divided by 365.25, times the APR. -/
def RateFraction (rate : ℚ) (next_date current_date : ℤ) : ℚ :=
  (((next_date - current_date : ℤ) : ℚ) / (365.25 : ℚ)) * rate

/-- Account.Preciate.  current_date is the schedule cursor of the account;
next_date is obtained from a copy of the timespec, modelled by the explicit
next-occurrence function nxt.

The Python code unpacks _amortization.get(current_date, (None, None)) and
branches on the truthiness of the principle component, so a missing entry
(None) and a present entry whose principle is 0.0 take the same branch; both
are modelled by the default 0.  In that branch an account literally named
"mortgage" prints a complaint and returns with its value untouched; every
other account falls through to the generic rate formula. -/
def Preciate (a : Account) (nxt : ℤ → ℤ) : Account :=
  let current_date : ℤ := a.cur
  let next_date : ℤ := nxt a.cur
  let principle : ℚ := ((amortLookup a.amortization current_date).map (fun e => e.2)).getD 0
  if principle ≠ 0 then
    { a with value := a.value + principle }
  else if a.name = "mortgage" then
    a
  else
    { a with value := a.value * (1 + RateFraction a.rate next_date current_date) }

/-- GeneralLedger.worth: sum of the value attribute over all registered
accounts (the registry dict is modelled as a list of accounts). -/
def worth (accounts : List Account) : ℚ :=
  (accounts.map (fun a => a.value)).sum

/-- GeneralLedger.debt: sum of the strictly negative values. -/
def debt (accounts : List Account) : ℚ :=
  ((accounts.filter (fun a => decide (a.value < 0))).map (fun a => a.value)).sum

/-- GeneralLedger.assets: sum of the strictly positive values. -/
def assets (accounts : List Account) : ℚ :=
  ((accounts.filter (fun a => decide (a.value > 0))).map (fun a => a.value)).sum

/-- C2: for every GeneralLedger state (any finite registry of accounts with
arbitrary rational values), worth equals assets plus debt: the zero-valued
accounts dropped by both filters contribute nothing to the total. -/
theorem worth_eq_assets_add_debt (accounts : List Account) :
    worth accounts = assets accounts + debt accounts := by
  induction accounts with
  | nil => simp [worth, assets, debt]
  | cons a t ih =>
    rcases lt_trichotomy a.value 0 with h | h | h
    · have h1 : ¬ a.value > 0 := by linarith
      simp only [worth, assets, debt, List.filter_cons, List.map_cons, List.sum_cons,
        decide_eq_true_eq, h, h1, if_true, if_false] at *
      linarith [ih]
    · simp only [worth, assets, debt, List.filter_cons, List.map_cons, List.sum_cons,
        decide_eq_true_eq, h] at *
      simp only [lt_irrefl, gt_iff_lt, if_false, reduceIte] at *
      linarith [ih]
    · have h1 : ¬ a.value < 0 := by linarith
      simp only [worth, assets, debt, List.filter_cons, List.map_cons, List.sum_cons,
        decide_eq_true_eq, h, h1, gt_iff_lt, if_true, if_false] at *
      linarith [ih]

/-! ## C1: the two modes of Preciate -/

/-- Account used to refute C1 as stated: its amortization table does have an
entry for the schedule's current date 0, but that entry's principle component
is 0. -/
def accZeroPrin : Account :=
  { mkAccount "car" 100 with rate := 1 / 10, cur := 0, amortization := [(0, (5, 0))] }

/-- C1 counterexample: an account whose amortization table has an entry for
the current date with principle component 0.  The claim says the entry's
principle is added to value (leaving it at 100) and the rate formula is
skipped; the code tests the truthiness of the principle, treats 0.0 like a
missing entry, and multiplies the value by the generic rate factor instead. -/
theorem preciate_entry_zero_principle_cex :
    amortLookup accZeroPrin.amortization accZeroPrin.cur = some (5, 0) ∧
      (Preciate accZeroPrin (fun _ => 30)).value ≠ accZeroPrin.value + 0 := by
  constructor
  · rfl
  · norm_num [Preciate, accZeroPrin, mkAccount, amortLookup, RateFraction,
      show strLower "car" ≠ "mortgage" from by decide]

/-- C1 (amended): if the amortization table has an entry for the schedule's
current date with a nonzero principle component, Preciate adds that principle
to value (and leaves the cursor alone) and the generic rate formula is not
applied; if there is no entry, or the entry's principle component is 0 (falsy
in Python), then an account literally named "mortgage" is returned unchanged,
and any other account, with variance disabled or stddev = 0, has its value
multiplied by (1 + rate_fraction) where
rate_fraction = ((next_date - current_date) / 365.25) * rate. -/
theorem preciate_branches (a : Account) (nxt : ℤ → ℤ) :
    (∀ i p, amortLookup a.amortization a.cur = some (i, p) → p ≠ 0 →
        Preciate a nxt = { a with value := a.value + p }) ∧
      (((amortLookup a.amortization a.cur).map (fun e => e.2)).getD 0 = 0 →
        a.name = "mortgage" → Preciate a nxt = a) ∧
      (((amortLookup a.amortization a.cur).map (fun e => e.2)).getD 0 = 0 →
        a.name ≠ "mortgage" →
        Preciate a nxt =
          { a with value := a.value * (1 + RateFraction a.rate (nxt a.cur) a.cur) }) := by
  refine ⟨?_, ?_, ?_⟩
  · intro i p hfind hp
    simp [Preciate, hfind, hp]
  · intro h0 hname
    simp [Preciate, h0, hname]
  · intro h0 hname
    simp [Preciate, h0, hname]

/-- Concrete loan-like account exercising the nonzero-principle branch. -/
def accPrin : Account :=
  { mkAccount "loan" (-100) with rate := 1 / 10, cur := 5, amortization := [(5, (3, 7))] }

/-- Witness for the amended C1 theorem: on a concrete account whose table has
the entry (3, 7) for the current date 5, Preciate adds the principle 7. -/
theorem preciate_branches_witness :
    Preciate accPrin (fun _ => 35) = { accPrin with value := accPrin.value + 7 } :=
  (preciate_branches accPrin (fun _ => 35)).1 3 7 (by decide) (by decide)

/-! ## C8: missing amortization entry handling is keyed on the name "mortgage" -/

/-- Amortization-eligible account (start date, nonempty table) whose table has
no entry for the current date 0, named "car". -/
def accCarGap : Account :=
  { mkAccount "car" 1000 with
      rate := 1 / 10, cur := 0, start_date := some (-900),
      amortization := [(999, (5, 7))] }

/-- The same configuration gap on an account named "mortgage". -/
def accMortGap : Account :=
  { mkAccount "mortgage" 1000 with
      rate := 1 / 10, cur := 0, start_date := some (-900),
      amortization := [(999, (5, 7))] }

/-- C8: the code contradicts the claim.  Both accounts have an
amortization-eligible profile whose table lacks an entry for the current date;
the claim requires the preciation to be reported and skipped regardless of the
account's name, but the code skips (after an unconditional print) only when
the name is literally "mortgage", and silently applies the generic rate
formula to everyone else. -/
theorem preciate_missing_entry_name_dependent :
    (Preciate accCarGap (fun _ => 30)).value ≠ accCarGap.value ∧
      Preciate accMortGap (fun _ => 30) = accMortGap := by
  constructor
  · norm_num [Preciate, accCarGap, mkAccount, amortLookup, RateFraction,
      show strLower "car" ≠ "mortgage" from by decide]
  · norm_num [Preciate, accMortGap, mkAccount, amortLookup, RateFraction,
      show strLower "mortgage" = "mortgage" from by decide]

/-! ## C9: AddAccount silently overwrites an existing registration -/

/-- GeneralLedger.AddAccount, restricted to its effect on the accounts
registry: the dict assignment self.accounts[account.name] = account replaces
the entry in place when the (already lowercased) name exists, and appends a
new entry otherwise.  No duplicate check of any kind is performed, and no
DuplicateAccountError class exists in the source.  (The amortization build and
the preciation enqueue that AddAccount also triggers do not touch  the
registry mapping and are modelled separately.) -/
def AddAccount (accounts : List Account) (account : Account) : List Account :=
  if accounts.any (fun b => b.name = account.name) then
    accounts.map (fun b => if b.name = account.name then account else b)
  else
    accounts ++ [account]

/-- C9: the code contradicts the claim.  Registering "Savings" (normalized to
the same key as the existing "savings") does not fail: the second account
silently replaces the first, which is lost. -/
theorem addAccount_silent_overwrite :
    AddAccount (AddAccount [] (mkAccount "savings" 100)) (mkAccount "Savings" 200) =
        [mkAccount "Savings" 200] ∧
      (mkAccount "Savings" 200).name = (mkAccount "savings" 100).name := by
  constructor
  · decide
  · decide

/-! ## C3: GeneralLedger.Sweep crashes on any nonempty registry -/

/-- GeneralLedger.Sweep.  The Python loop header is
for account in self.accounts: — iterating a dict yields its KEYS, which are
strings, so the very first loop body evaluates account.sweep_out on a str and
raises AttributeError; no transfer is ever performed.  (Even with values
the body would break: self.accounts[sweep.sweep_account] += transfer adds a
float to an Account object.)  On an empty registry the loop body never runs
and the method returns normally. -/
def Sweep (accounts : List Account) : Except PyErr (List Account) :=
  match accounts with
  | [] => Except.ok []
  | _ :: _ => Except.error PyErr.attributeError

/-- Registry for the C3 failing input: checking holds 6000 with a sweep_out
rule to savings at watermark 5000, so the claim promises a 1000 transfer. -/
def c3Checking : Account :=
  { mkAccount "checking" 6000 with sweep_out := some ⟨"savings", 5000⟩ }

/-- Destination account of the C3 failing input. -/
def c3Savings : Account := mkAccount "savings" 100

/-- C8-style evaluation for C3: on the very registry where the claim promises
a value - watermark transfer, GeneralLedger.Sweep raises AttributeError
before moving any money; only the empty registry returns normally. -/
theorem sweep_raises_attribute_error :
    Sweep [c3Checking, c3Savings] = Except.error PyErr.attributeError ∧
      Sweep [] = Except.ok [] := by
  constructor
  · rfl
  · rfl

/-! ## C4: ValidateSweeps raises on every nonempty registry -/

/-- The membership test account.sweep_in not in self.accounts from
GeneralLedger.ValidateSweeps: the left operand is None or a SweepRule object,
the container holds the registry's string keys, and no such object ever
equals a string key, so the test never finds a member. -/
def sweepRefInAccounts (_rule : Option SweepRule) (accounts : List Account) : Bool :=
  accounts.any (fun _a => false)

/-- Loop body of GeneralLedger.ValidateSweeps over the remaining items of
accounts.iteritems(), with all of the registry passed for the membership
tests.  Since the membership test is always False, the first iteration always
reaches the raise; the raise itself evaluates
'%s ... %s ...' % account_name — a format string with two placeholders
applied to a single value — which raises TypeError before any
InvalidSweepError is constructed. -/
def validateGo (all : List Account) : List Account → Except PyErr Unit
  | [] => Except.ok ()
  | a :: rest =>
    if sweepRefInAccounts a.sweep_in all then
      if sweepRefInAccounts a.sweep_out all then validateGo all rest
      else Except.error PyErr.typeError
    else Except.error PyErr.typeError

/-- GeneralLedger.ValidateSweeps. -/
def ValidateSweeps (accounts : List Account) : Except PyErr Unit :=
  validateGo accounts accounts

/-- C4: the code contradicts the claim.  On a registry with a single account
carrying no sweep rules at all — where every sweep destination trivially
resolves and the claim promises a normal return — ValidateSweeps raises
(a TypeError from the malformed format string, in place of the intended
InvalidSweepError), because it tests membership of the rule object instead of
the rule's destination name. -/
theorem validateSweeps_raises_on_valid_registry :
    ValidateSweeps [mkAccount "checking" 100] = Except.error PyErr.typeError := by
  rfl

/-! ## C6: composing Preciate steps compounds multiplicatively -/

/-- Repeated preciation of one account along successive schedule occurrences,
as the simulation loop performs it: each step runs Preciate with the next
occurrence d and then advances the timespec cursor to d (the loop's
get_next call). -/
def preciateRun (a : Account) : List ℤ → Account
  | [] => a
  | d :: ds => preciateRun { Preciate a (fun _ => d) with cur := d } ds

/-- The factor that one rate-mode Preciate step applies for each consecutive
pair of occurrence dates, starting from cursor c. -/
def prodRF (r : ℚ) : ℤ → List ℤ → ℚ
  | _, [] => 1
  | c, d :: ds => (1 + RateFraction r d c) * prodRF r d ds

/-- One rate-mode step spelled out: with an empty amortization table and a
name other than "mortgage", Preciate multiplies value by (1 + rate_fraction)
and changes nothing else. -/
theorem preciate_no_amort (a : Account) (nxt : ℤ → ℤ)
    (hA : a.amortization = []) (hN : a.name ≠ "mortgage") :
    Preciate a nxt = { a with value := a.value * (1 + RateFraction a.rate (nxt a.cur) a.cur) } := by
  simp [Preciate, amortLookup, hA, hN]

/-- One loop iteration (Preciate followed by the cursor advance) on a
rate-mode account, written as a plain record update. -/
theorem preciate_step_fields (a : Account) (d : ℤ)
    (hA : a.amortization = []) (hN : a.name ≠ "mortgage") :
    ({ Preciate a (fun _ => d) with cur := d } : Account) =
      { a with value := a.value * (1 + RateFraction a.rate d a.cur), cur := d } := by
  rw [preciate_no_amort a _ hA hN]

/-- Composing Preciate calls over consecutive schedule occurrences multiplies
the value of a rate-mode account by the product of the per-period factors. -/
theorem preciateRun_value (a : Account) (ds : List ℤ)
    (hA : a.amortization = []) (hN : a.name ≠ "mortgage") :
    (preciateRun a ds).value = a.value * prodRF a.rate a.cur ds := by
  induction ds generalizing a with
  | nil => simp [preciateRun, prodRF]
  | cons d ds ih =>
    rw [preciateRun, preciate_step_fields a d hA hN,
      ih ({ a with value := a.value * (1 + RateFraction a.rate d a.cur), cur := d }) hA hN]
    simp [prodRF]
    ring

/-- C6 (amended): for an account with rate r, no amortization table, a name
other than "mortgage" and stddev = 0 (variance disabled), composing Preciate
calls over consecutive schedule occurrences multiplies the value by the
PRODUCT of the per-period factors (1 + (days_i / 365.25) * r).  The result
therefore depends on how a year is partitioned (the factors compound
multiplicatively), and no partition of a 365-day calendar year yields exactly
value * (1 + r). -/
theorem preciateRun_product (a : Account) (ds : List ℤ)
    (hA : a.amortization = []) (hN : a.name ≠ "mortgage") :
    (preciateRun a ds).value = a.value * prodRF a.rate a.cur ds :=
  preciateRun_value a ds hA hN

/-- Witness account for C6: savings at 10000 with APR 1/10, cursor at day 0,
no amortization table. -/
def accSav : Account :=
  { mkAccount "savings" 10000 with rate := 1 / 10, cur := 0 }

/-- Witness for the amended C6 theorem at a concrete single 365-day period. -/
theorem preciateRun_product_witness :
    (preciateRun accSav [365]).value = accSav.value * prodRF accSav.rate accSav.cur [365] :=
  preciateRun_product accSav [365] rfl (by decide)

/-- C6 counterexample: the claim as stated is false.  Partitioning the same
365-day year once as a single step and once as two sub-periods (day 0 to 181,
day 181 to 365) produces different final values, and the two-step value
exceeds value * (1 + r) by more than 20 dollars on a 10000-dollar account at
r = 1/10 — far beyond floating tolerance, so the result is not independent of
the partition and does not equal value * (1 + r). -/
theorem preciateRun_partition_cex :
    (preciateRun accSav [181, 365]).value ≠ (preciateRun accSav [365]).value ∧
      20 < (preciateRun accSav [181, 365]).value - accSav.value * (1 + accSav.rate) := by
  have h2 : (preciateRun accSav [181, 365]).value = 10000 * ((1 + (181 / (365.25 : ℚ)) * (1 / 10)) * ((1 + ((365 - 181) / (365.25 : ℚ)) * (1 / 10)) * 1)) := by
    rw [preciateRun_value accSav [181, 365] rfl (by decide)]
    norm_num [prodRF, RateFraction, accSav, mkAccount]
  have h1 : (preciateRun accSav [365]).value = 10000 * ((1 + (365 / (365.25 : ℚ)) * (1 / 10)) * 1) := by
    rw [preciateRun_value accSav [365] rfl (by decide)]
    norm_num [prodRF, RateFraction, accSav, mkAccount]
  constructor
  · rw [h1, h2]
    norm_num
  · rw [h2]
    have hv : accSav.value = 10000 := rfl
    have hr : accSav.rate = 1 / 10 := rfl
    rw [hv, hr]
    norm_num

/-! ## C5: BuildAmortization -/

/-- Remaining balance after k iterations of the BuildAmortization loop:
each iteration subtracts principle = payment - monthly_rate * balance. -/
def balAfter (monthly_rate payment : ℚ) : ℕ → ℚ → ℚ
  | 0, b => b
  | k + 1, b => balAfter monthly_rate payment k (b - (payment - monthly_rate * b))

/-- The table-building loop of Account.BuildAmortization: k iterations remain,
i indexes the occurrence of the duplicated monthly croniter (dates i is its
day number), balance is the remaining positive balance.  Each iteration
records (date, interest, principle) with interest = monthly_rate * balance
and principle = payment - interest, subtracts the principle from the balance,
and advances the schedule. -/
def amortEntries (dates : ℕ → ℤ) (monthly_rate payment : ℚ) :
    ℕ → ℕ → ℚ → List (ℤ × ℚ × ℚ)
  | 0, _, _ => []
  | k + 1, i, balance =>
    (dates i, monthly_rate * balance, payment - monthly_rate * balance) ::
      amortEntries dates monthly_rate payment k (i + 1)
        (balance - (payment - monthly_rate * balance))

/-- Account.BuildAmortization.  Returns the amortization table as a
date-keyed association list; returns none exactly where the Python float
division raises ZeroDivisionError, namely when the payment denominator
(1 + monthly_rate)^loan_months - 1 is zero (for instance rate = 0).  An
account without a start date, or with a positive value, is warned about and
left without a table; an account with falsy loan_months is treated as
interest-only and also gets no table entries. -/
def BuildAmortization (dates : ℕ → ℤ) (a : Account) : Option (List (ℤ × ℚ × ℚ)) :=
  if a.start_date = none then some []
  else if 0 < a.value then some []
  else if a.loan_months ≠ 0 then
    let monthly_rate := a.rate / 12
    let balance := -a.value
    let denominator := (1 + monthly_rate) ^ a.loan_months - 1
    if denominator = 0 then none
    else
      some (amortEntries dates monthly_rate
        (monthly_rate * balance * (1 + monthly_rate) ^ a.loan_months / denominator)
        a.loan_months 0 balance)
  else some []

/-- The loop produces one table entry per iteration. -/
theorem amortEntries_length (dates : ℕ → ℤ) (mr pay : ℚ) :
    ∀ (n i : ℕ) (b : ℚ), (amortEntries dates mr pay n i b).length = n := by
  intro n
  induction n with
  | zero => intro i b; rfl
  | succ k ih => intro i b; simp [amortEntries, ih]

/-- The date keys of the table are the n consecutive schedule occurrences
starting at index i. -/
theorem amortEntries_keys (dates : ℕ → ℤ) (mr pay : ℚ) :
    ∀ (n i : ℕ) (b : ℚ),
      (amortEntries dates mr pay n i b).map (fun e => e.1) =
        (List.range n).map (fun k => dates (i + k)) := by
  intro n
  induction n with
  | zero => intro i b; rfl
  | succ k ih =>
    intro i b
    rw [List.range_succ_eq_map]
    simp only [amortEntries, List.map_cons, List.map_map, ih]
    refine congrArg₂ _ (congrArg dates (by omega)) ?_
    apply List.map_congr_left
    intro x _
    exact congrArg dates (by omega)

/-- Telescoping: the principle components of the table sum to the drop of the
balance across the loop. -/
theorem amortEntries_principal_sum (dates : ℕ → ℤ) (mr pay : ℚ) :
    ∀ (n i : ℕ) (b : ℚ),
      ((amortEntries dates mr pay n i b).map (fun e => e.2.2)).sum =
        b - balAfter mr pay n b := by
  intro n
  induction n with
  | zero => intro i b; simp [amortEntries, balAfter]
  | succ k ih =>
    intro i b
    simp only [amortEntries, balAfter, List.map_cons, List.sum_cons, ih]
    ring

/-- Closed form of the remaining balance, stated multiplied by the monthly
rate so that no division is needed. -/
theorem balAfter_mul (mr pay : ℚ) :
    ∀ (n : ℕ) (b : ℚ),
      mr * balAfter mr pay n b =
        mr * ((1 + mr) ^ n * b) - pay * ((1 + mr) ^ n - 1) := by
  intro n
  induction n with
  | zero => intro b; simp [balAfter]
  | succ k ih =>
    intro b
    rw [balAfter, ih, pow_succ]
    ring

/-- C5 (amended): for every loan account with negative starting value,
nonzero loan_months, a start date, a strictly advancing monthly schedule and
a POSITIVE rate (so that the fixed-payment denominator is nonzero and the
Python division does not raise ZeroDivisionError), BuildAmortization produces
a table with exactly loan_months distinctly dated entries whose principle
components sum to the absolute value of the original loan balance — exactly,
in exact arithmetic, hence within any rounding tolerance. -/
theorem buildAmortization_length_sum (a : Account) (dates : ℕ → ℤ)
    (hv : a.value < 0) (hn : a.loan_months ≠ 0) (hs : a.start_date ≠ none)
    (hr : 0 < a.rate) (hmono : StrictMono dates) :
    ∃ t, BuildAmortization dates a = some t ∧ t.length = a.loan_months ∧
      (t.map (fun e => e.1)).Nodup ∧ (t.map (fun e => e.2.2)).sum = -a.value := by
  have hmr : 0 < a.rate / 12 := by positivity
  have hq : 1 < (1 + a.rate / 12) ^ a.loan_months := by
    apply one_lt_pow₀ (by linarith) hn
  have hden : (1 + a.rate / 12) ^ a.loan_months - 1 ≠ 0 := by linarith
  have h2 : ¬ 0 < a.value := by linarith
  refine ⟨amortEntries dates (a.rate / 12)
      (a.rate / 12 * -a.value * (1 + a.rate / 12) ^ a.loan_months /
        ((1 + a.rate / 12) ^ a.loan_months - 1))
      a.loan_months 0 (-a.value), ?_, ?_, ?_, ?_⟩
  · rw [BuildAmortization, if_neg hs, if_neg h2, if_pos hn, if_neg hden]
  · exact amortEntries_length dates _ _ _ _ _
  · rw [amortEntries_keys]
    refine List.Nodup.map ?_ (List.nodup_range _)
    intro x y hxy
    have := hmono.injective hxy
    omega
  · rw [amortEntries_principal_sum]
    have hb0 : (a.rate / 12) * balAfter (a.rate / 12)
        (a.rate / 12 * -a.value * (1 + a.rate / 12) ^ a.loan_months /
          ((1 + a.rate / 12) ^ a.loan_months - 1))
        a.loan_months (-a.value) = 0 := by
      rw [balAfter_mul, div_mul_cancel₀ _ hden]
      ring
    have := (mul_eq_zero.mp hb0).resolve_left (ne_of_gt hmr)
    rw [this]
    ring

/-- Concrete two-month loan used to witness the amended C5 theorem. -/
def accLoan2 : Account :=
  { mkAccount "autoloan" (-1000) with
      rate := 12 / 100, loan_months := 2, start_date := some 0 }

/-- Monthly date sequence used for the concrete amortization tables. -/
def dates30 (k : ℕ) : ℤ := 30 * (k : ℤ)

/-- Witness for the amended C5 theorem on the concrete two-month loan. -/
theorem buildAmortization_length_sum_witness :
    ∃ t, BuildAmortization dates30 accLoan2 = some t ∧ t.length = accLoan2.loan_months ∧
      (t.map (fun e => e.1)).Nodup ∧ (t.map (fun e => e.2.2)).sum = -accLoan2.value :=
  buildAmortization_length_sum accLoan2 dates30
    (by norm_num [accLoan2, mkAccount]) (by decide) (by decide)
    (by norm_num [accLoan2, mkAccount])
    (by intro x y hxy; simp only [dates30]; omega)

/-- Zero-rate loan account on which the claim as stated fails. -/
def accLoanZero : Account :=
  { mkAccount "loan" (-1000) with
      rate := 0, loan_months := 12, start_date := some 0 }

/-- C5 counterexample: the claim quantifies over every loan account with a
negative value, nonzero loan_months, a start date and a monthly schedule, but
at rate 0 the fixed-payment denominator (1 + 0/12)^12 - 1 is 0.0 and the
Python float division raises ZeroDivisionError: no 12-entry table is
produced. -/
theorem buildAmortization_zero_rate_cex :
    BuildAmortization dates30 accLoanZero = none := by
  norm_num [BuildAmortization, accLoanZero, mkAccount]
  intro h
  exact absurd h (by decide)

/-! ## C10: the daily sweep step of the main loop conserves worth -/

/-- self.accounts[name]: the registry entry with the given name (dict keys
are unique; the association-list model returns the first match). -/
def lookupAcc (accounts : List Account) (nm : String) : Option Account :=
  accounts.find? (fun a => decide (a.name = nm))

/-- In-place mutation account.value += delta of the named registry entry
(the Python objects are aliased between the registry and every iteration
variable, so mutating the object is mutating the registry entry). -/
def adjust : List Account → String → ℚ → List Account
  | [], _, _ => []
  | a :: t, nm, d =>
    if a.name = nm then { a with value := a.value + d } :: t
    else a :: adjust t nm d

/-- The sweep step executed once per simulated day at the bottom of the
__main__ loop, iterating over the registry values in order.  For an account
with a sweep_out rule the destination is looked up FIRST (a missing
destination name raises KeyError — the lookup precedes the watermark test in
the source, so it fires even when no transfer would happen); then, when
value > watermark, the excess value - watermark is subtracted from the
account and added to the destination.  Later iterations observe the live
mutated objects, modelled by re-reading each account by name from the updated
registry.  This step never consults sweep_in rules.  The none fallback of the
per-name lookup is unreachable: the name list is the registry's own key
list. -/
def sweepMainGo : List String → List Account → Option (List Account)
  | [], accounts => some accounts
  | nm :: rest, accounts =>
    match lookupAcc accounts nm with
    | none => sweepMainGo rest accounts
    | some a =>
      match a.sweep_out with
      | none => sweepMainGo rest accounts
      | some rule =>
        match lookupAcc accounts rule.sweep_account with
        | none => none
        | some _ =>
          if rule.amount < a.value then
            sweepMainGo rest
              (adjust (adjust accounts nm (-(a.value - rule.amount)))
                rule.sweep_account (a.value - rule.amount))
          else sweepMainGo rest accounts

/-- The __main__ sweep step over the whole registry. -/
def sweepMain (accounts : List Account) : Option (List Account) :=
  sweepMainGo (accounts.map (fun a => a.name)) accounts

/-- Adjusting a value leaves the name column of the registry unchanged. -/
theorem adjust_map_name (nm : String) (d : ℚ) :
    ∀ accounts : List Account,
      (adjust accounts nm d).map (fun a => a.name) = accounts.map (fun a => a.name) := by
  intro accounts
  induction accounts with
  | nil => rfl
  | cons a t ih =>
    by_cases h : a.name = nm
    · simp [adjust, h]
    · simp [adjust, h, ih]

/-- A name resolves in the registry exactly when it occurs in the name
column. -/
theorem lookupAcc_isSome_iff (accounts : List Account) (nm : String) :
    (lookupAcc accounts nm).isSome ↔ nm ∈ accounts.map (fun a => a.name) := by
  rw [lookupAcc, List.find?_isSome]
  simp [eq_comm]

/-- Crediting delta to a resolvable name changes worth by exactly delta. -/
theorem worth_adjust (nm : String) (d : ℚ) :
    ∀ accounts : List Account, (lookupAcc accounts nm).isSome →
      worth (adjust accounts nm d) = worth accounts + d := by
  intro accounts
  induction accounts with
  | nil => intro h; simp [lookupAcc] at h
  | cons a t ih =>
    intro h
    by_cases hn : a.name = nm
    · simp [adjust, hn, worth]
      ring
    · have h' : (lookupAcc t nm).isSome := by
        rw [lookupAcc, List.find?_cons_of_neg] at h
        · exact h
        · simp [hn]
      simp only [adjust, hn, if_false, worth, List.map_cons, List.sum_cons, reduceIte]
      have := ih h'
      simp only [worth] at this
      rw [this]
      ring

/-- Worth is invariant under the per-name loop of the sweep step: every
transfer debits the source and credits the destination by the same amount. -/
theorem sweepMainGo_worth :
    ∀ (names : List String) (accounts accounts' : List Account),
      sweepMainGo names accounts = some accounts' →
      worth accounts' = worth accounts := by
  intro names
  induction names with
  | nil =>
    intro accounts accounts' h
    simp [sweepMainGo] at h
    rw [h]
  | cons nm rest ih =>
    intro accounts accounts' h
    rw [sweepMainGo] at h
    split at h
    · exact ih _ _ h
    · rename_i a hsrc
      split at h
      · exact ih _ _ h
      · rename_i rule hrule
        split at h
        · cases h
        · rename_i b hdest
          split at h
          · rename_i hcmp
            have hsome1 : (lookupAcc accounts nm).isSome := by rw [hsrc]; rfl
            have hsome2 : (lookupAcc (adjust accounts nm (-(a.value - rule.amount)))
                rule.sweep_account).isSome := by
              rw [lookupAcc_isSome_iff, adjust_map_name, ← lookupAcc_isSome_iff, hdest]
              rfl
            rw [ih _ _ h, worth_adjust _ _ _ hsome2, worth_adjust _ _ _ hsome1]
            ring
          · exact ih _ _ h

/-- C10: executing one daily sweep step of the main loop leaves total worth
unchanged whenever the step completes (i.e. no sweep destination name raises
KeyError): the sum of all account values after the step equals the sum
before it. -/
theorem sweep_step_preserves_worth (accounts accounts' : List Account)
    (h : sweepMain accounts = some accounts') :
    worth accounts' = worth accounts :=
  sweepMainGo_worth _ _ _ h

/-- Source account of the concrete sweep witness: checking at 6000 sweeping
everything above 5000 into savings. -/
def swChecking : Account :=
  { name := "checking", value := 6000, rate := 0, stddev := 0, liquidity := 0,
    sweep_out := some ⟨"savings", 5000⟩, sweep_in := none, start_date := none,
    loan_months := 0, amortization := [], cur := 0 }

/-- Destination account of the concrete sweep witness. -/
def swSavings : Account :=
  { name := "savings", value := 100, rate := 0, stddev := 0, liquidity := 0,
    sweep_out := none, sweep_in := none, start_date := none,
    loan_months := 0, amortization := [], cur := 0 }

/-- Result of the concrete sweep witness on checking: 1000 moved out. -/
def swChecking' : Account := { swChecking with value := 5000 }

/-- Result of the concrete sweep witness on savings: 1000 moved in. -/
def swSavings' : Account := { swSavings with value := 1100 }

/-- Witness for C10: on the concrete two-account registry the sweep step
completes, moves 1000 from checking to savings, and worth is unchanged. -/
theorem sweep_step_preserves_worth_witness :
    worth [swChecking', swSavings'] = worth [swChecking, swSavings] :=
  sweep_step_preserves_worth [swChecking, swSavings] [swChecking', swSavings'] (by
    norm_num [sweepMain, sweepMainGo, lookupAcc, adjust, List.find?,
      swChecking, swSavings, swChecking', swSavings',
      show ("checking" : String) ≠ "savings" from by decide,
      show ("savings" : String) ≠ "checking" from by decide])

/-! ## C7: the daily simulation loop -/

/-- Cashflow.__init__, restricted to the attributes the simulation loop
reads: the flow's name, the bound account name, the signed amount, the stddev
(ignored with variance disabled) and the croniter cursor.  The starting,
ending and category attributes are stored by the constructor but never
consulted by the loop. -/
structure Cashflow where
  name : String
  account : String
  amount : ℚ
  stddev : ℚ
  cur : ℤ
deriving DecidableEq, Repr

/-- GeneralLedger state used by the __main__ loop: the accounts registry and
the two defaultdict(list) event queues, keyed by day number. -/
structure Ledger where
  accounts : List Account
  cashflows : List (ℤ × List Cashflow)
  preciations : List (ℤ × List String)
deriving DecidableEq, Repr

/-- One dispatch recorded by the daily loop, used to state the ordering
contract: a cashflow application, a preciation, or the sweep step. -/
inductive Event where
  | cash : String → ℤ → Event
  | prec : String → ℤ → Event
  | sweep : ℤ → Event
deriving DecidableEq, Repr

/-- Day on which an event was dispatched. -/
def evDate : Event → ℤ
  | Event.cash _ d => d
  | Event.prec _ d => d
  | Event.sweep d => d

/-- Dispatch phase of an event within its day: cashflows first, then
preciations, then the sweep step. -/
def evKind : Event → ℕ
  | Event.cash _ _ => 0
  | Event.prec _ _ => 1
  | Event.sweep _ => 2

/-- Day of a sweep event (the once-per-day marker of the loop body). -/
def sweepDate : Event → Option ℤ
  | Event.sweep d => some d
  | _ => none

/-- defaultdict(list) read access: the bucket stored under the key, or []. -/
def qLookup {α : Type} (q : List (ℤ × List α)) (d : ℤ) : List α :=
  ((q.find? (fun e => decide (e.1 = d))).map (fun e => e.2)).getD []

/-- State of the queue after the while-pop loop drained the bucket under key
d: the entry (if present) holds the empty list; no entry is created. -/
def qClear {α : Type} (q : List (ℤ × List α)) (d : ℤ) : List (ℤ × List α) :=
  q.map (fun e => if e.1 = d then (e.1, []) else e)

/-- defaultdict(list) append access q[d].append(x): extend the existing
bucket, or create a fresh one at the end. -/
def qAppend {α : Type} (q : List (ℤ × List α)) (d : ℤ) (x : α) : List (ℤ × List α) :=
  if q.any (fun e => decide (e.1 = d)) then
    q.map (fun e => if e.1 = d then (e.1, e.2 ++ [x]) else e)
  else q ++ [(d, [x])]

/-- In-place replacement of the named registry entry, modelling a mutation of
the aliased account object shared by the registry and the preciation
queue. -/
def replaceAcc : List Account → String → Account → List Account
  | [], _, _ => []
  | a :: t, nm, b =>
    if a.name = nm then b :: t
    else a :: replaceAcc t nm b

/-- The cashflow while-pop loop of the __main__ body for day d, processing
the drained bucket in pop order (last-appended first; the caller reverses the
bucket).  Each flow adds its amount to its bound account — a name absent from
the registry raises KeyError — then re-enqueues itself under its next
occurrence csched cf.name cf.cur, advancing its cursor.  With variance
disabled the stddev perturbation branch is never taken.  (A next occurrence
equal to d itself would be re-popped by the live Python loop and make it spin
forever; croniter's get_next is strictly advancing, so the model processes
exactly the drained bucket.)  The trace lists the flows in processing
order. -/
def processCashGo (csched : String → ℤ → ℤ) (d : ℤ) :
    List Cashflow → Ledger → Except PyErr (Ledger × List Event)
  | [], st => Except.ok (st, [])
  | cf :: rest, st =>
    match lookupAcc st.accounts cf.account with
    | none => Except.error PyErr.keyError
    | some _ =>
      match processCashGo csched d rest
          { st with
              accounts := adjust st.accounts cf.account cf.amount,
              cashflows := qAppend st.cashflows (csched cf.name cf.cur)
                { cf with cur := csched cf.name cf.cur } } with
      | Except.error e => Except.error e
      | Except.ok (st2, evs) => Except.ok (st2, Event.cash cf.name d :: evs)

/-- The preciation while-pop loop of the __main__ body for day d, processing
the drained bucket in pop order.  Each popped account object is Preciated
(reading its own cursor and, for the next date, a copy of its timespec),
then the loop reads current and next occurrence from the same timespec —
get_next advances the cursor — raises CronError when the schedule failed to
advance, and re-enqueues the account under the next date.  The queue holds
the account objects themselves; the model keys it by name and looks the
object up in the registry, whose entries alias the queued objects (the none
fallback is unreachable for queues built from registered accounts). -/
def processPrecGo (sched : String → ℤ → ℤ) (d : ℤ) :
    List String → Ledger → Except PyErr (Ledger × List Event)
  | [], st => Except.ok (st, [])
  | nm :: rest, st =>
    match lookupAcc st.accounts nm with
    | none => Except.error PyErr.keyError
    | some a =>
      if sched nm a.cur = a.cur then Except.error PyErr.cronError
      else
        match processPrecGo sched d rest
            { st with
                accounts := replaceAcc st.accounts nm
                  { Preciate a (sched nm) with cur := sched nm a.cur },
                preciations := qAppend st.preciations (sched nm a.cur) nm } with
        | Except.error e => Except.error e
        | Except.ok (st2, evs) => Except.ok (st2, Event.prec nm d :: evs)

/-- One iteration of the __main__ while loop, for loop_date d: drain and
process the day's cashflow bucket (oldest appended last, popped first), then
drain and process the day's preciation bucket, then run the sweep step over
every account.  The trace records every dispatch in execution order and ends
with the day's sweep marker. -/
def dayStep (sched csched : String → ℤ → ℤ) (st : Ledger) (d : ℤ) :
    Except PyErr (Ledger × List Event) :=
  match processCashGo csched d (qLookup st.cashflows d).reverse
      { st with cashflows := qClear st.cashflows d } with
  | Except.error e => Except.error e
  | Except.ok (st1, cevs) =>
    match processPrecGo sched d (qLookup st1.preciations d).reverse
        { st1 with preciations := qClear st1.preciations d } with
    | Except.error e => Except.error e
    | Except.ok (st2, pevs) =>
      match sweepMain st2.accounts with
      | none => Except.error PyErr.keyError
      | some accounts2 =>
        Except.ok ({ st2 with accounts := accounts2 }, cevs ++ pevs ++ [Event.sweep d])

/-- The __main__ while loop with an explicit iteration budget: while d < e,
advance loop_date to d + 1 and run the day's body.  The budget (e - d).toNat
supplied by simRun makes the guard and the budget run out together. -/
def simGo (sched csched : String → ℤ → ℤ) :
    ℕ → Ledger → ℤ → ℤ → Except PyErr (Ledger × List Event)
  | 0, st, _, _ => Except.ok (st, [])
  | f + 1, st, d, e =>
    if d < e then
      match dayStep sched csched st (d + 1) with
      | Except.error er => Except.error er
      | Except.ok (st1, evs) =>
        match simGo sched csched f st1 (d + 1) e with
        | Except.error er => Except.error er
        | Except.ok (st2, evs2) => Except.ok (st2, evs ++ evs2)
    else Except.ok (st, [])

/-- The __main__ simulation: step one day at a time from start_date
(exclusive) to end_date (inclusive), collecting the dispatch trace. -/
def simRun (sched csched : String → ℤ → ℤ) (st : Ledger) (d e : ℤ) :
    Except PyErr (Ledger × List Event) :=
  simGo sched csched (e - d).toNat st d e

/-- A list whose members relate to everything on the right is pairwise
related. -/
theorem pairwise_of_forall_left {α : Type} {R : α → α → Prop} :
    ∀ l : List α, (∀ a ∈ l, ∀ b, R a b) → l.Pairwise R := by
  intro l
  induction l with
  | nil => intro _; exact List.Pairwise.nil
  | cons a t ih =>
    intro h
    exact List.Pairwise.cons (fun b _ => h a (by simp) b)
      (ih (fun x hx b => h x (by simp [hx]) b))

/-- A list whose members pairwise relate in both positions is pairwise
related. -/
theorem pairwise_of_forall_mem {α : Type} {R : α → α → Prop} :
    ∀ l : List α, (∀ a ∈ l, ∀ b ∈ l, R a b) → l.Pairwise R := by
  intro l
  induction l with
  | nil => intro _; exact List.Pairwise.nil
  | cons a t ih =>
    intro h
    refine List.Pairwise.cons (fun b hb => h a (by simp) b (by simp [hb])) ?_
    exact ih (fun x hx b hb => h x (by simp [hx]) b (by simp [hb]))

/-- Every event emitted by the cashflow loop of day d is a cashflow dispatch
dated d. -/
theorem processCashGo_events (csched : String → ℤ → ℤ) (d : ℤ) :
    ∀ (cfs : List Cashflow) (st st2 : Ledger) (evs : List Event),
      processCashGo csched d cfs st = Except.ok (st2, evs) →
      ∀ ev ∈ evs, ∃ nm, ev = Event.cash nm d := by
  intro cfs
  induction cfs with
  | nil =>
    intro st st2 evs h
    rw [processCashGo] at h
    cases h
    simp
  | cons cf rest ih =>
    intro st st2 evs h
    rw [processCashGo] at h
    split at h
    · cases h
    · split at h
      · cases h
      · rename_i st3 evs3 heq
        cases h
        intro ev hev
        rcases List.mem_cons.mp hev with rfl | hev2
        · exact ⟨cf.name, rfl⟩
        · exact ih _ _ _ heq ev hev2

/-- Every event emitted by the preciation loop of day d is a preciation
dispatch dated d. -/
theorem processPrecGo_events (sched : String → ℤ → ℤ) (d : ℤ) :
    ∀ (nms : List String) (st st2 : Ledger) (evs : List Event),
      processPrecGo sched d nms st = Except.ok (st2, evs) →
      ∀ ev ∈ evs, ∃ nm, ev = Event.prec nm d := by
  intro nms
  induction nms with
  | nil =>
    intro st st2 evs h
    rw [processPrecGo] at h
    cases h
    simp
  | cons nm rest ih =>
    intro st st2 evs h
    rw [processPrecGo] at h
    split at h
    · cases h
    · split at h
      · cases h
      · split at h
        · cases h
        · rename_i st3 evs3 heq
          cases h
          intro ev hev
          rcases List.mem_cons.mp hev with rfl | hev2
          · exact ⟨nm, rfl⟩
          · exact ih _ _ _ heq ev hev2

/-- A completed day body emits its cashflow dispatches, then its preciation
dispatches, then exactly one sweep marker, all dated with the day itself. -/
theorem dayStep_shape (sched csched : String → ℤ → ℤ) (st : Ledger) (d : ℤ)
    (st' : Ledger) (tr : List Event)
    (h : dayStep sched csched st d = Except.ok (st', tr)) :
    ∃ ce pe, tr = ce ++ pe ++ [Event.sweep d] ∧
      (∀ ev ∈ ce, ∃ nm, ev = Event.cash nm d) ∧
      (∀ ev ∈ pe, ∃ nm, ev = Event.prec nm d) := by
  rw [dayStep] at h
  split at h
  · cases h
  · rename_i st1 cevs hc
    split at h
    · cases h
    · rename_i st2 pevs hp
      split at h
      · cases h
      · cases h
        exact ⟨cevs, pevs, rfl,
          processCashGo_events _ _ _ _ _ _ hc,
          processPrecGo_events _ _ _ _ _ _ hp⟩

/-- All events of a completed day body carry the day as their date. -/
theorem dayStep_dates (sched csched : String → ℤ → ℤ) (st : Ledger) (d : ℤ)
    (st' : Ledger) (tr : List Event)
    (h : dayStep sched csched st d = Except.ok (st', tr)) :
    ∀ ev ∈ tr, evDate ev = d := by
  obtain ⟨ce, pe, rfl, hce, hpe⟩ := dayStep_shape sched csched st d st' tr h
  intro ev hev
  rcases List.mem_append.mp hev with hev1 | hev1
  · rcases List.mem_append.mp hev1 with hev2 | hev2
    · obtain ⟨nm, rfl⟩ := hce ev hev2
      rfl
    · obtain ⟨nm, rfl⟩ := hpe ev hev2
      rfl
  · rcases List.mem_singleton.mp hev1 with rfl
    rfl

/-- Within a completed day body, the dispatch phases appear in order:
no preciation before a cashflow and no sweep before either. -/
theorem dayStep_pairwise (sched csched : String → ℤ → ℤ) (st : Ledger) (d : ℤ)
    (st' : Ledger) (tr : List Event)
    (h : dayStep sched csched st d = Except.ok (st', tr)) :
    tr.Pairwise (fun x y => evDate x = evDate y → evKind x ≤ evKind y) := by
  obtain ⟨ce, pe, rfl, hce, hpe⟩ := dayStep_shape sched csched st d st' tr h
  rw [List.append_assoc, List.pairwise_append]
  refine ⟨?_, ?_, ?_⟩
  · refine pairwise_of_forall_left ce (fun a ha b => ?_)
    obtain ⟨nm, rfl⟩ := hce a ha
    intro _
    exact Nat.zero_le _
  · rw [List.pairwise_append]
    refine ⟨?_, ?_, ?_⟩
    · refine pairwise_of_forall_mem pe (fun a ha b hb => ?_)
      obtain ⟨nm, rfl⟩ := hpe a ha
      obtain ⟨nm2, rfl⟩ := hpe b hb
      intro _
      exact Nat.le_refl _
    · exact List.pairwise_singleton _ _
    · intro a ha b hb
      obtain ⟨nm, rfl⟩ := hpe a ha
      rcases List.mem_singleton.mp hb with rfl
      intro _
      exact Nat.le_succ _
  · intro a ha b hb
    obtain ⟨nm, rfl⟩ := hce a ha
    intro _
    exact Nat.zero_le _

/-- A completed day body contributes exactly one sweep marker, dated with the
day. -/
theorem dayStep_sweepDates (sched csched : String → ℤ → ℤ) (st : Ledger) (d : ℤ)
    (st' : Ledger) (tr : List Event)
    (h : dayStep sched csched st d = Except.ok (st', tr)) :
    tr.filterMap sweepDate = [d] := by
  obtain ⟨ce, pe, rfl, hce, hpe⟩ := dayStep_shape sched csched st d st' tr h
  rw [List.filterMap_append, List.filterMap_append]
  have h1 : ce.filterMap sweepDate = [] := by
    rw [List.filterMap_eq_nil_iff]
    intro a ha
    obtain ⟨nm, rfl⟩ := hce a ha
    rfl
  have h2 : pe.filterMap sweepDate = [] := by
    rw [List.filterMap_eq_nil_iff]
    intro a ha
    obtain ⟨nm, rfl⟩ := hpe a ha
    rfl
  rw [h1, h2]
  rfl

/-- Trace properties of the fueled while loop, for a budget matching
(e - d).toNat: all events fall in the half-open day range, the sweep markers
enumerate each simulated day exactly once, and same-day events appear in
phase order. -/
theorem simGo_spec (sched csched : String → ℤ → ℤ) (e : ℤ) :
    ∀ (f : ℕ) (d : ℤ) (st st' : Ledger) (tr : List Event),
      (e - d).toNat = f →
      simGo sched csched f st d e = Except.ok (st', tr) →
      (∀ ev ∈ tr, d < evDate ev ∧ evDate ev ≤ e) ∧
        (tr.filterMap sweepDate).Nodup ∧
        (∀ x : ℤ, x ∈ tr.filterMap sweepDate ↔ d < x ∧ x ≤ e) ∧
        tr.Pairwise (fun a b => evDate a = evDate b → evKind a ≤ evKind b) := by
  intro f
  induction f with
  | zero =>
    intro d st st' tr hf h
    have hde : e ≤ d := by omega
    rw [simGo] at h
    cases h
    refine ⟨by simp, by simp, ?_, by simp⟩
    intro x
    simp only [List.filterMap_nil, List.not_mem_nil, false_iff]
    omega
  | succ f ih =>
    intro d st st' tr hf h
    have hde : d < e := by omega
    rw [simGo, if_pos hde] at h
    split at h
    · cases h
    · rename_i st1 evs1 hday
      split at h
      · cases h
      · rename_i st2 evs2 hrest
        cases h
        have hf2 : (e - (d + 1)).toNat = f := by omega
        obtain ⟨ih1, ih2, ih3, ih4⟩ := ih (d + 1) st1 st' evs2 hf2 hrest
        have hd1 := dayStep_dates sched csched st (d + 1) st1 evs1 hday
        have hsw := dayStep_sweepDates sched csched st (d + 1) st1 evs1 hday
        have hpw := dayStep_pairwise sched csched st (d + 1) st1 evs1 hday
        refine ⟨?_, ?_, ?_, ?_⟩
        · intro ev hev
          rcases List.mem_append.mp hev with h1 | h1
          · rw [hd1 ev h1]
            omega
          · have := ih1 ev h1
            omega
        · rw [List.filterMap_append, hsw, List.singleton_append, List.nodup_cons]
          refine ⟨?_, ih2⟩
          intro hmem
          have := (ih3 (d + 1)).mp hmem
          omega
        · intro x
          rw [List.filterMap_append, hsw, List.singleton_append, List.mem_cons]
          constructor
          · rintro (rfl | hx)
            · omega
            · have := (ih3 x).mp hx
              omega
          · intro hx
            by_cases hxe : x = d + 1
            · exact Or.inl hxe
            · exact Or.inr ((ih3 x).mpr ⟨by omega, hx.2⟩)
        · rw [List.pairwise_append]
          refine ⟨hpw, ih4, ?_⟩
          intro a ha b hb hdate
          have h1 := hd1 a ha
          have h2 := (ih1 b hb).1
          omega

/-- C7: the simulation loop visits each calendar day of the half-open range
from start_date (exclusive) to end_date (inclusive) exactly once — witnessed
by the once-per-day sweep markers of the trace, whose dates enumerate that
range without repetition — and within each simulated day every due Cashflow
dispatch precedes every due preciation dispatch, and every preciation
dispatch precedes the sweep step (same-day events appear in nondecreasing
phase order, cashflow < preciation < sweep). -/
theorem simRun_ordering (sched csched : String → ℤ → ℤ) (st : Ledger)
    (d e : ℤ) (st' : Ledger) (tr : List Event)
    (h : simRun sched csched st d e = Except.ok (st', tr)) :
    (∀ ev ∈ tr, d < evDate ev ∧ evDate ev ≤ e) ∧
      (tr.filterMap sweepDate).Nodup ∧
      (∀ x : ℤ, x ∈ tr.filterMap sweepDate ↔ d < x ∧ x ≤ e) ∧
      tr.Pairwise (fun a b => evDate a = evDate b → evKind a ≤ evKind b) :=
  simGo_spec sched csched e (e - d).toNat d st st' tr rfl h

/-- 30-day schedule used by the concrete simulation witness. -/
def schedW : String → ℤ → ℤ := fun _ c => c + 30

/-- Concrete cashflow for the simulation witness: 50 into savings, due day 1. -/
def cfW : Cashflow :=
  { name := "pay", account := "savings", amount := 50, stddev := 0, cur := 1 }

/-- Concrete account for the simulation witness: savings at 100, rate 0,
preciation due day 1. -/
def accW : Account :=
  { name := "savings", value := 100, rate := 0, stddev := 0, liquidity := 0,
    sweep_out := none, sweep_in := none, start_date := none,
    loan_months := 0, amortization := [], cur := 1 }

/-- Initial ledger of the simulation witness. -/
def stW : Ledger :=
  { accounts := [accW], cashflows := [(1, [cfW])], preciations := [(1, ["savings"])] }

/-- Ledger after the two simulated days: the cashflow landed (100 + 50), the
rate-0 preciation left the value alone, both events re-enqueued under day
31. -/
def stW2 : Ledger :=
  { accounts := [{ accW with value := 150, cur := 31 }],
    cashflows := [(1, []), (31, [{ cfW with cur := 31 }])],
    preciations := [(1, []), (31, ["savings"])] }

/-- Trace of the two simulated days of the witness run. -/
def trW : List Event :=
  [Event.cash "pay" 1, Event.prec "savings" 1, Event.sweep 1, Event.sweep 2]

/-- Witness for C7: a concrete two-day run (one due cashflow and one due
preciation on day 1, nothing due on day 2) completes, and its trace satisfies
the day-coverage and intra-day ordering properties. -/
theorem simRun_ordering_witness :
    (∀ ev ∈ trW, 0 < evDate ev ∧ evDate ev ≤ 2) ∧
      (trW.filterMap sweepDate).Nodup ∧
      (∀ x : ℤ, x ∈ trW.filterMap sweepDate ↔ 0 < x ∧ x ≤ 2) ∧
      trW.Pairwise (fun a b => evDate a = evDate b → evKind a ≤ evKind b) :=
  simRun_ordering schedW schedW stW 0 2 stW2 trW (by
    norm_num [simRun, simGo, dayStep, processCashGo, processPrecGo, sweepMain,
      sweepMainGo, qLookup, qClear, qAppend, lookupAcc, adjust, replaceAcc,
      Preciate, amortLookup, RateFraction, List.find?, schedW, cfW, accW, stW,
      stW2, trW, show ("savings" : String) ≠ "mortgage" from by decide])
